import Mathlib

/-!
Verification development for the BAML compiler front-end core:
IR lowering (`baml-lib/baml-core/src/ir/repr.rs`) and the jinja
expression type evaluator (specified in `baml-lib/jinja/src/evaluate_type`).

The Rust source is shallowly embedded: each Rust function becomes an
executable Lean definition over inductive models of the Rust data types.
Machine integers that cannot overflow in the modelled scenarios are
modelled as `Nat`; Rust `Result` becomes `Except String`; the entity
collections of the parser database become explicit lists.
-/

/-! ## Core data types from `baml_types` -/

/-- Model of `baml_types::TypeValue` (the primitive type kinds). -/
inductive TypeValue where
  | string
  | int
  | float
  | bool
  | null
deriving DecidableEq, Repr

/-- Model of `baml_types::LiteralValue`. -/
inductive LiteralValue where
  | int (i : Int)
  | string (s : String)
  | bool (b : Bool)
deriving DecidableEq, Repr

/-- Model of `baml_types::ConstraintLevel` (Assert or Check). -/
inductive ConstraintLevel where
  | assert
  | check
deriving DecidableEq, Repr

/-- Model of `baml_types::Constraint`. The `JinjaExpression` payload is kept
as its raw string. -/
structure Constraint where
  level : ConstraintLevel
  expression : String
  label : Option String
deriving DecidableEq, Repr

/-- Model of `baml_types::FieldType`, the canonical lowered type.
`Class` is rendered as `classType` and `Enum` as `enumType` because of Lean
keyword clashes. -/
inductive FieldType where
  | primitive (tv : TypeValue)
  | enumType (name : String)
  | literal (v : LiteralValue)
  | classType (name : String)
  | list (inner : FieldType)
  | map (key : FieldType) (value : FieldType)
  | union (members : List FieldType)
  | tuple (members : List FieldType)
  | optional (inner : FieldType)
  | constrained (base : FieldType) (constraints : List Constraint)

/-! ## AST model from `internal_baml_schema_ast::ast` -/

/-- Model of `ast::FieldArity`. -/
inductive FieldArity where
  | required
  | optional
deriving DecidableEq, Repr

/-- Model of `FieldArity::is_optional`. -/
def FieldArity.is_optional : FieldArity → Bool
  | .required => false
  | .optional => true

/-- Model of `ast::Identifier` (the parser-level identifier). `Identifier::Ref`
carries a path; its `repr` only uses `full_name`, which is what we keep. -/
inductive AstIdentifier where
  | env (k : String)
  | str (s : String)
  | localVar (l : String)
  | ref (fullName : String)
  | invalid
deriving DecidableEq, Repr

/-- Model of `ast::Expression` (the parser-level expression).
`JinjaExpressionValue` keeps its raw string. -/
inductive AstExpression where
  | boolValue (b : Bool)
  | numericValue (v : String)
  | stringValue (s : String)
  | rawStringValue (s : String)
  | jinjaExpressionValue (j : String)
  | identifier (i : AstIdentifier)
  | array (elems : List AstExpression)
  | map (pairs : List (AstExpression × AstExpression))

/-- Model of a parser-level attribute attached to an AST field type:
a name plus an argument list (`attr.name`, `attr.arguments.arguments`). -/
structure AstAttribute where
  name : String
  arguments : List AstExpression

/-- Model of `ast::FieldType`. Every variant carries its arity and its
attached attribute list; `List` additionally carries its dimension count
(`u32` in the source, modelled as `Nat`). `Map` carries the key and value
types (boxed pair in the source). Spans are omitted. -/
inductive AstFieldType where
  | primitive (arity : FieldArity) (tv : TypeValue) (attrs : List AstAttribute)
  | literal (arity : FieldArity) (v : LiteralValue) (attrs : List AstAttribute)
  | symbol (arity : FieldArity) (name : String) (attrs : List AstAttribute)
  | list (arity : FieldArity) (elem : AstFieldType) (dims : Nat) (attrs : List AstAttribute)
  | map (arity : FieldArity) (key : AstFieldType) (value : AstFieldType) (attrs : List AstAttribute)
  | union (arity : FieldArity) (members : List AstFieldType) (attrs : List AstAttribute)
  | tuple (arity : FieldArity) (members : List AstFieldType) (attrs : List AstAttribute)

/-- The attribute list attached to an AST field type node. -/
def AstFieldType.attrsOf : AstFieldType → List AstAttribute
  | .primitive _ _ a => a
  | .literal _ _ a => a
  | .symbol _ _ a => a
  | .list _ _ _ a => a
  | .map _ _ _ a => a
  | .union _ _ a => a
  | .tuple _ _ a => a

/-- The arity of an AST field type node. -/
def AstFieldType.arityOf : AstFieldType → FieldArity
  | .primitive ar _ _ => ar
  | .literal ar _ _ => ar
  | .symbol ar _ _ => ar
  | .list ar _ _ _ => ar
  | .map ar _ _ _ => ar
  | .union ar _ _ => ar
  | .tuple ar _ _ => ar

/-- The same AST field type node with its top-level arity replaced. -/
def AstFieldType.withArity : AstFieldType → FieldArity → AstFieldType
  | .primitive _ tv a, ar => .primitive ar tv a
  | .literal _ v a, ar => .literal ar v a
  | .symbol _ n a, ar => .symbol ar n a
  | .list _ e d a, ar => .list ar e d a
  | .map _ k v a, ar => .map ar k v a
  | .union _ m a, ar => .union ar m a
  | .tuple _ m a, ar => .tuple ar m a

/-- Whether the top-level constructor is a union. -/
def AstFieldType.isUnion : AstFieldType → Bool
  | .union _ _ _ => true
  | _ => false

/-- Model of the constraint extraction in `WithRepr<FieldType>::attributes`
(repr.rs lines 352-392): keep only `assert`/`check` attributes whose argument
list is either a single jinja expression (anonymous constraint) or a
(local-identifier, jinja-expression) pair (labeled constraint). -/
def attrConstraints (attrs : List AstAttribute) : List Constraint :=
  attrs.filterMap fun attr => do
    let level ← match attr.name with
      | "assert" => some ConstraintLevel.assert
      | "check" => some ConstraintLevel.check
      | _ => none
    let labelExpr : Option String × String ← match attr.arguments with
      | [arg1, arg2] =>
        match arg1, arg2 with
        | AstExpression.identifier (AstIdentifier.localVar s),
          AstExpression.jinjaExpressionValue j => some (some s, j)
        | _, _ => none
      | [arg1] =>
        match arg1 with
        | AstExpression.jinjaExpressionValue j => some (none, j)
        | _ => none
      | _ => none
    pure { level := level, expression := labelExpr.2, label := labelExpr.1 }

/-! ## The name registry view of the parser database

`ast::FieldType::repr` resolves symbols through `db.find_type`, which returns
either a class walker or an enum walker; `repr` only uses the walker name and
its subtype-level constraints (`get_constraints`, an `Option<Vec<Constraint>>`).
We model exactly that interface. -/

/-- Result of `ParserDatabase::find_type`: either a class or an enum, with its
name and the optional subtype-level constraint list exposed by the walker. -/
inductive FoundType where
  | classFound (name : String) (constraints : Option (List Constraint))
  | enumFound (name : String) (constraints : Option (List Constraint))
deriving Repr

/-- Model of `type_with_arity` (repr.rs lines 342-347). -/
def type_with_arity (t : FieldType) (arity : FieldArity) : FieldType :=
  match arity with
  | FieldArity.required => t
  | FieldArity.optional => FieldType.optional t

/-- Applies `n` extra `List` wrappers around `t`; models the
`for _ in 1u32..dims` loop of the `ast::FieldType::List` arm, which wraps
`dims - 1` additional times (zero times when `dims` is 0 or 1). -/
def wrapLists : Nat → FieldType → FieldType
  | 0, t => t
  | n + 1, t => FieldType.list (wrapLists n t)

/-! ## Field type lowering: `WithRepr<FieldType> for ast::FieldType::repr`
(repr.rs lines 394-492). The parser database is passed as the symbol
resolver `find_type`. Lowering is fallible (`anyhow::Result` becomes
`Except String`). -/

/-- The symbol resolution interface used by field-type lowering:
`ParserDatabase::find_type` restricted to the data `repr` reads off the
returned walker. -/
structure TypeResolver where
  find_type : String → Option FoundType

mutual

/-- Model of `ast::FieldType::repr` (repr.rs lines 394-492). Computes the
constraints from the attributes of the node itself, lowers the base type, and wraps
in `Constrained` when the node carries constraints. -/
def AstFieldType.repr (db : TypeResolver) (t : AstFieldType) : Except String FieldType := do
  let constraints := attrConstraints t.attrsOf
  let has_constraints := constraints.length > 0
  let base ← match t with
    | AstFieldType.primitive arity typeval _ =>
      let r := FieldType.primitive typeval
      pure (if arity.is_optional then FieldType.optional r else r)
    | AstFieldType.literal arity literal_value _ =>
      let r := FieldType.literal literal_value
      pure (if arity.is_optional then FieldType.optional r else r)
    | AstFieldType.symbol arity idn _ =>
      match db.find_type idn with
      | some (FoundType.classFound name maybe_constraints) =>
        let base_class := FieldType.classType name
        pure (type_with_arity
          (match maybe_constraints with
            | some cs =>
              if cs.length > 0 then FieldType.constrained base_class cs else base_class
            | none => base_class) arity)
      | some (FoundType.enumFound name maybe_constraints) =>
        let base_type := FieldType.enumType name
        pure (type_with_arity
          (match maybe_constraints with
            | some cs =>
              if cs.length > 0 then FieldType.constrained base_type cs else base_type
            | none => base_type) arity)
      | none => throw "Field type uses unresolvable local identifier"
    | AstFieldType.list arity ft dims _ => do
      -- NB comment in the source: potential bug, this hands back a 1D list
      -- when dims == 0 (the `for _ in 1u32..dims` loop adds dims - 1 wrappers).
      let elem ← AstFieldType.repr db ft
      let r := wrapLists (dims - 1) (FieldType.list elem)
      pure (if arity.is_optional then FieldType.optional r else r)
    | AstFieldType.map arity k v _ => do
      let kr ← AstFieldType.repr db k
      let vr ← AstFieldType.repr db v
      let r := FieldType.map kr vr
      pure (if arity.is_optional then FieldType.optional r else r)
    | AstFieldType.union arity ts _ => do
      -- NB comment in the source: preempt union flattening by mixing arity
      -- into union types; an optional union gains an explicit Null member.
      let types ← AstFieldType.reprList db ts
      pure (FieldType.union
        (if arity.is_optional then types ++ [FieldType.primitive TypeValue.null] else types))
    | AstFieldType.tuple arity ts _ => do
      let types ← AstFieldType.reprList db ts
      pure (type_with_arity (FieldType.tuple types) arity)
  pure (if has_constraints then FieldType.constrained base constraints else base)

/-- Lowering of a list of field types, propagating the first error
(`collect::<Result<Vec<_>>>` in the source). -/
def AstFieldType.reprList (db : TypeResolver) : List AstFieldType → Except String (List FieldType)
  | [] => pure []
  | t :: ts => do
    let r ← AstFieldType.repr db t
    let rs ← AstFieldType.reprList db ts
    pure (r :: rs)

end

/-- A resolver with no names registered, for concrete tests. -/
def emptyResolver : TypeResolver := { find_type := fun _ => none }

/-- A resolver that knows one class `Foo` and one enum `Color`, both without
subtype-level constraints, for concrete tests. -/
def fooResolver : TypeResolver :=
  { find_type := fun n =>
      if n = "Foo" then some (FoundType.classFound "Foo" none)
      else if n = "Color" then some (FoundType.enumFound "Color" none)
      else none }


/-! ## IR expressions (repr.rs lines 495-592) -/

/-- Model of the IR `Identifier` (repr.rs lines 496-506). -/
inductive Identifier where
  | env (k : String)
  | ref (path : List String)
  | localVar (l : String)
  | primitive (p : TypeValue)

/-- Model of the IR `Expression` (repr.rs lines 519-529). -/
inductive Expression where
  | identifier (i : Identifier)
  | bool (b : Bool)
  | numeric (v : String)
  | string (s : String)
  | rawString (s : String)
  | list (elems : List Expression)
  | map (pairs : List (Expression × Expression))
  | jinjaExpression (j : String)

mutual

/-- Model of `Expression::required_env_vars` (repr.rs lines 532-547):
collect `Identifier::ENV` leaves, descending through `List` and `Map`
expressions; all other variants contribute nothing. -/
def Expression.required_env_vars : Expression → List String
  | Expression.identifier (Identifier.env k) => [k]
  | Expression.list l => Expression.required_env_vars_list l
  | Expression.map m => Expression.required_env_vars_pairs m
  | _ => []

/-- The flat_map over the elements of a `List` expression. -/
def Expression.required_env_vars_list : List Expression → List String
  | [] => []
  | e :: es => Expression.required_env_vars e ++ Expression.required_env_vars_list es

/-- The flat_map over the (key, value) entries of a `Map` expression; the key
vars come first, then the value vars (`keys.extend(v...)` in the source). -/
def Expression.required_env_vars_pairs : List (Expression × Expression) → List String
  | [] => []
  | (k, v) :: rest =>
    (Expression.required_env_vars k ++ Expression.required_env_vars v) ++
      Expression.required_env_vars_pairs rest

end

mutual

/-- Model of `WithRepr<Expression> for ast::Expression::repr`
(repr.rs lines 549-592). Fails only on `Identifier::Invalid`. -/
def AstExpression.repr : AstExpression → Except String Expression
  | AstExpression.boolValue v => pure (Expression.bool v)
  | AstExpression.numericValue v => pure (Expression.numeric v)
  | AstExpression.stringValue v => pure (Expression.string v)
  | AstExpression.rawStringValue v => pure (Expression.rawString v)
  | AstExpression.jinjaExpressionValue v => pure (Expression.jinjaExpression v)
  | AstExpression.identifier idn =>
    match idn with
    | AstIdentifier.env k => pure (Expression.identifier (Identifier.env k))
    | AstIdentifier.str s => pure (Expression.string s)
    | AstIdentifier.localVar l => pure (Expression.identifier (Identifier.localVar l))
    -- Refs are represented as plain strings of their full name in the IR.
    | AstIdentifier.ref fullName => pure (Expression.string fullName)
    | AstIdentifier.invalid => throw "Cannot represent an invalid parser-AST identifier"
  | AstExpression.array arr => do
    let rs ← AstExpression.reprList arr
    pure (Expression.list rs)
  | AstExpression.map m => do
    let rs ← AstExpression.reprPairs m
    pure (Expression.map rs)

/-- Elementwise lowering of an array literal, failing on the first error. -/
def AstExpression.reprList : List AstExpression → Except String (List Expression)
  | [] => pure []
  | e :: es => do
    let r ← AstExpression.repr e
    let rs ← AstExpression.reprList es
    pure (r :: rs)

/-- Pairwise lowering of a map literal, failing on the first error. -/
def AstExpression.reprPairs :
    List (AstExpression × AstExpression) → Except String (List (Expression × Expression))
  | [] => pure []
  | (k, v) :: rest => do
    let kr ← AstExpression.repr k
    let vr ← AstExpression.repr v
    let rs ← AstExpression.reprPairs rest
    pure ((kr, vr) :: rs)

end

/-! ## ClientSpec (repr.rs lines 874-913)

Rust `String` is modelled as `List Char` here so that `contains` and
`split_once` can be reasoned about character by character. -/

/-- Model of the IR `ClientSpec`: `Named(id)` or `Shorthand(provider, model)`. -/
inductive ClientSpec where
  | named (n : List Char)
  | shorthand (provider : List Char) (model : List Char)
deriving DecidableEq, Repr

/-- Model of `str::contains("/")`: whether a slash occurs in the string. -/
def containsSlash (s : List Char) : Bool :=
  s.any (fun c => c = '/')

/-- Model of `str::split_once("/")`: the pieces before and after the first
slash, or `none` when no slash occurs. -/
def splitOnceSlash : List Char → Option (List Char × List Char)
  | [] => none
  | c :: rest =>
    if c = '/' then some ([], rest)
    else
      match splitOnceSlash rest with
      | some (p, m) => some (c :: p, m)
      | none => none

/-- Model of `ClientSpec::new_from_id` (repr.rs lines 889-896): split at the
first slash into `Shorthand(provider, model)` when a slash occurs, else
`Named`. The `unwrap` in the source is safe because `split_once` succeeds
exactly when `contains` returned true, which the `splitOnceSlash` option
models directly. -/
def ClientSpec.new_from_id (arg : List Char) : ClientSpec :=
  if containsSlash arg then
    match splitOnceSlash arg with
    | some (provider, model) => ClientSpec.shorthand provider model
    | none => ClientSpec.named arg
  else
    ClientSpec.named arg

/-- Model of `ClientSpec::as_str` (repr.rs lines 882-887). -/
def ClientSpec.as_str : ClientSpec → List Char
  | ClientSpec.named n => n
  | ClientSpec.shorthand provider model => provider ++ '/' :: model


/-! ## IR entities and assembly (repr.rs lines 26-207, 594-1145)

Entity structures live in namespace `IR` to avoid clashes with Mathlib.
`Node<T>` carries `NodeAttributes` in the source (attribute map, constraint
list, span); no claim reads entity-level node attributes, so the model keeps
only the element. Likewise `Function` tests and prompt spans are omitted. -/

/-- Model of `Node<T>` with the `NodeAttributes` metadata omitted. -/
structure Node (α : Type) where
  elem : α

namespace IR

/-- Model of the IR `Enum`: a name and its value names
(`EnumValue` wraps a bare name). -/
structure Enum where
  name : String
  values : List String

/-- Model of the IR `Field`: a name and its lowered type. -/
structure Field where
  name : String
  type : FieldType

/-- Model of the IR `Class`. -/
structure Class where
  name : String
  static_fields : List (Node Field)
  inputs : List (String × FieldType)

/-- Model of `FunctionConfig` (prompt span omitted). The `client` is kept as
the already-converted IR `ClientSpec`. -/
structure FunctionConfig where
  name : String
  prompt_template : String
  client : ClientSpec

/-- Model of the IR `Function` (tests omitted: no claim touches test cases). -/
structure Function where
  name : String
  inputs : List (String × FieldType)
  output : FieldType
  configs : List FunctionConfig
  default_config : String

/-- Model of the IR `Client`. -/
structure Client where
  name : String
  provider : String
  retry_policy_id : Option String
  options : List (String × Expression)

/-- Model of the IR `RetryPolicy`. The name is the payload of
`RetryPolicyId` (`name.0` in the sort comparison of the source); the opaque
`RetryPolicyStrategy` is modelled as a string. -/
structure RetryPolicy where
  name : String
  max_retries : Nat
  strategy : String
  options : List (String × Expression)

/-- Model of the IR `TemplateString`. -/
structure TemplateString where
  name : String
  params : List Field
  content : String

/-- Model of `IntermediateRepr` (the opaque `Configuration` is omitted). -/
structure IntermediateRepr where
  enums : List (Node Enum)
  classes : List (Node Class)
  finite_recursive_cycles : List (List String)
  functions : List (Node Function)
  clients : List (Node Client)
  retry_policies : List (Node RetryPolicy)
  template_strings : List (Node TemplateString)

end IR

/-! ### AST entity views and their lowering

Each structure models exactly the data the corresponding walker exposes to
its `WithRepr` implementation in repr.rs. -/

/-- AST view of an enum: name and value names (`EnumValueWalker::repr` is
infallible). -/
structure AstEnum where
  name : String
  values : List String

/-- AST view of a class field: `FieldWalker` name and the optional type
expression `ast_field().expr`. -/
structure AstField where
  name : String
  expr : Option AstFieldType

/-- AST view of a class: name, fields, and the optional block input args. -/
structure AstClass where
  name : String
  static_fields : List AstField
  inputs : Option (List (String × AstFieldType))

/-- AST view of a function. The source `.expect`s the presence of input and
output block args, so they are modelled as present; `client_spec()` returns a
`Result`, modelled as `Except`. -/
structure AstFunction where
  name : String
  inputs : List (String × AstFieldType)
  output : AstFieldType
  jinja_prompt : String
  client_spec : Except String ClientSpec

/-- AST view of a client: name, provider, optional retry policy reference,
and raw option expressions. -/
structure AstClient where
  name : String
  provider : String
  retry_policy : Option String
  options : List (String × AstExpression)

/-- AST view of a retry policy configuration (strategy kept opaque). -/
structure AstRetryPolicy where
  name : String
  max_retries : Nat
  strategy : String
  options : Option (List (String × AstExpression))

/-- AST view of a template string: name, optional block args, and content. -/
structure AstTemplateString where
  name : String
  input : Option (List (String × AstFieldType))
  content : String

/-- Model of the `ParserDatabase` data consumed by `from_parser_database`:
the name resolver plus walkable entity collections, in declaration order.
`finite_recursive_cycles` is stored as class-name sets already (the source
maps type ids to names through the AST). -/
structure ParserDatabase where
  resolver : TypeResolver
  enums : List AstEnum
  classes : List AstClass
  finite_recursive_cycles : List (List String)
  functions : List AstFunction
  clients : List AstClient
  retry_policies : List AstRetryPolicy
  template_strings : List AstTemplateString

/-- Model of `WithRepr<Field> for FieldWalker::repr` (repr.rs lines 702-718). -/
def AstField.repr (db : TypeResolver) (f : AstField) : Except String IR.Field := do
  match f.expr with
  | none => throw "Internal error occurred while resolving repr of field"
  | some e => do
    let ft ← AstFieldType.repr db e
    pure { name := f.name, type := ft }

/-- Model of `EnumWalker::node` (repr.rs lines 661-682): infallible. -/
def AstEnum.node (e : AstEnum) : Except String (Node IR.Enum) :=
  pure ⟨{ name := e.name, values := e.values }⟩

/-- Model of `ClassWalker::node` (repr.rs lines 736-769). -/
def AstClass.node (db : TypeResolver) (c : AstClass) : Except String (Node IR.Class) := do
  let fields ← c.static_fields.mapM (fun f => (AstField.repr db f).map Node.mk)
  let inputs ← match c.inputs with
    | some input => input.mapM (fun arg => do
        let field_type ← AstFieldType.repr db arg.2
        pure (arg.1, field_type))
    | none => pure []
  pure ⟨{ name := c.name, static_fields := fields, inputs := inputs }⟩

/-- Model of `FunctionWalker::node` (repr.rs lines 965-1010, tests omitted). -/
def AstFunction.node (db : TypeResolver) (f : AstFunction) : Except String (Node IR.Function) := do
  let inputs ← f.inputs.mapM (fun arg => do
    let field_type ← AstFieldType.repr db arg.2
    pure (arg.1, field_type))
  let output ← AstFieldType.repr db f.output
  let client ← f.client_spec
  pure ⟨{ name := f.name, inputs := inputs, output := output,
          configs := [{ name := "default_config",
                        prompt_template := f.jinja_prompt,
                        client := client }],
          default_config := "default_config" }⟩

/-- Model of `ClientWalker::node` (repr.rs lines 1022-1048). -/
def AstClient.node (c : AstClient) : Except String (Node IR.Client) := do
  let options ← c.options.mapM (fun kv => do
    let e ← AstExpression.repr kv.2
    pure (kv.1, e))
  pure ⟨{ name := c.name, provider := c.provider,
          retry_policy_id := c.retry_policy, options := options }⟩

/-- Model of `ConfigurationWalker::node` for retry policies
(repr.rs lines 1063-1086); absent options collapse to the empty list. -/
def AstRetryPolicy.node (r : AstRetryPolicy) : Except String (Node IR.RetryPolicy) := do
  let options ← match r.options with
    | some o => o.mapM (fun kv => do
        let e ← AstExpression.repr kv.2
        pure (kv.1, e))
    | none => pure []
  pure ⟨{ name := r.name, max_retries := r.max_retries,
          strategy := r.strategy, options := options }⟩

/-- Model of `TemplateStringWalker::node` (repr.rs lines 603-632): parameters
whose types fail to lower are silently dropped (`.ok()` + `filter_map`). -/
def AstTemplateString.node (db : TypeResolver) (t : AstTemplateString) :
    Except String (Node IR.TemplateString) :=
  pure ⟨{ name := t.name,
          params := (t.input.getD []).filterMap (fun arg =>
            ((AstFieldType.repr db arg.2).toOption).map (fun ft =>
              { name := arg.1, type := ft })),
          content := t.content }⟩

/-- Model of `IntermediateRepr::from_parser_database` (repr.rs lines 155-206):
collect every entity collection, failing the whole assembly on the first
lowering error, then sort five of the collections by entity name. The source
does not sort `template_strings`. -/
def from_parser_database (db : ParserDatabase) : Except String IR.IntermediateRepr := do
  let enums ← db.enums.mapM AstEnum.node
  let classes ← db.classes.mapM (AstClass.node db.resolver)
  let functions ← db.functions.mapM (AstFunction.node db.resolver)
  let clients ← db.clients.mapM AstClient.node
  let retry_policies ← db.retry_policies.mapM AstRetryPolicy.node
  let template_strings ← db.template_strings.mapM (AstTemplateString.node db.resolver)
  let repr : IR.IntermediateRepr :=
    { enums := enums, classes := classes,
      finite_recursive_cycles := db.finite_recursive_cycles,
      functions := functions, clients := clients,
      retry_policies := retry_policies, template_strings := template_strings }
  -- Sort each item by name (stable, like Rust sort_by over cmp on names).
  pure { repr with
    enums := repr.enums.mergeSort (fun a b => decide (a.elem.name ≤ b.elem.name)),
    classes := repr.classes.mergeSort (fun a b => decide (a.elem.name ≤ b.elem.name)),
    functions := repr.functions.mergeSort (fun a b => decide (a.elem.name ≤ b.elem.name)),
    clients := repr.clients.mergeSort (fun a b => decide (a.elem.name ≤ b.elem.name)),
    retry_policies := repr.retry_policies.mergeSort (fun a b => decide (a.elem.name ≤ b.elem.name)) }

/-- Modelled from the spec: the `required_env_vars` method of the IR client
walker is not under src (only its call site in
`IntermediateRepr::required_env_vars` is); per the spec it is
"a pure read-only traversal over lowered client options, collecting any
`Identifier::Env` leaves (recursively through list/map expressions)". -/
def IR.Client.required_env_vars (c : IR.Client) : List String :=
  (c.options.map (fun kv => Expression.required_env_vars kv.2)).flatten

/-- Model of `IntermediateRepr::required_env_vars` (repr.rs lines 68-91):
walk the clients and insert every collected variable name into a hash set
(modelled as `Finset String`). -/
def IR.IntermediateRepr.required_env_vars (ir : IR.IntermediateRepr) : Finset String :=
  ir.clients.foldl
    (fun env_vars client =>
      (IR.Client.required_env_vars client.elem).foldl (fun acc v => insert v acc) env_vars)
    ∅

/-! ## Expression type evaluator

The evaluator implementation (`baml-lib/jinja/src/evaluate_type/{expr,types}.rs`)
is not under src; only its test file `test_expr.rs` is. The definitions below
are therefore modelled from the spec (sections 4.5, 4.6 and the data model of
section 3), constrained to reproduce the externally visible behaviour the
test file pins down. Diagnostics are modelled structurally rather than as
message strings. -/

/-- Modelled from the spec: the evaluator type lattice (`Type` in
`evaluate_type/types.rs`, not under src): `Number`, `Int`, `Float`, `Bool`,
`String`, `None`, `Literal`, `Optional`, `Union`, `List`, `ClassRef`,
`FunctionRef`, plus the internal `Unknown` cascade-suppression sentinel. -/
inductive EvalType where
  | number
  | int
  | float
  | bool
  | string
  | noneType
  | literal (v : LiteralValue)
  | optional (inner : EvalType)
  | union (members : List EvalType)
  | list (inner : EvalType)
  | classRef (name : String)
  | functionRef (name : String)
  | unknown

mutual

/-- Boolean equality on evaluator types (the derived instance is unavailable
for nested inductives). -/
def EvalType.beq : EvalType → EvalType → Bool
  | .number, .number => true
  | .int, .int => true
  | .float, .float => true
  | .bool, .bool => true
  | .string, .string => true
  | .noneType, .noneType => true
  | .literal a, .literal b => a = b
  | .optional a, .optional b => EvalType.beq a b
  | .union a, .union b => EvalType.beqList a b
  | .list a, .list b => EvalType.beq a b
  | .classRef a, .classRef b => a = b
  | .functionRef a, .functionRef b => a = b
  | .unknown, .unknown => true
  | _, _ => false

/-- Elementwise boolean equality on lists of evaluator types. -/
def EvalType.beqList : List EvalType → List EvalType → Bool
  | [], [] => true
  | a :: as_, b :: bs => EvalType.beq a b && EvalType.beqList as_ bs
  | _, _ => false

end

/-- Modelled from the spec: diagnostics produced by the evaluator
(section 7, error class 2), kept structural instead of as message strings.
`unknownArg` and `unknownVariable` carry their "did you mean" suggestion
lists. -/
inductive Diag where
  | unknownVariable (name : String) (suggestions : List String)
  | unknownProperty (className : String) (propName : String)
  | notCallable
  | arityMismatch (fn : String) (expected : Nat) (got : Nat)
  | argTypeMismatch (fn : String) (arg : String) (expected : EvalType) (got : EvalType)
  | missingArg (fn : String) (arg : String)
  | unknownArg (fn : String) (arg : String) (suggestions : List String)

/-- Modelled from the spec: a function signature in the registry — return
type and ordered named parameters (section 3, Type Registry). The designated
builtin context function binds keyword options only, all of them optional,
which the flag records. -/
structure FunctionDecl where
  ret : EvalType
  params : List (String × EvalType)
  allOptionalKwargs : Bool

/-- Modelled from the spec: `PredefinedTypes`, the registry of known
variables, classes (field maps) and functions. -/
structure PredefinedTypes where
  vars : List (String × EvalType)
  classes : List (String × List (String × EvalType))
  functions : List (String × FunctionDecl)

/-- First match lookup in an association list (registry tables). -/
def lookupList {α : Type} (l : List (String × α)) (key : String) : Option α :=
  (l.find? (fun kv => kv.1 = key)).map Prod.snd

/-! ### Diagnostic/Suggestion engine (spec section 4.6)

Modelled from the spec: "returning the closest candidates by
edit-distance-like similarity, capped to a small count", deterministic via
stable tie-breaking. The cap of three and the alphabetical presentation
order reproduce the suggestion lists pinned down by `test_expr.rs`. -/

/-- One row update of the Levenshtein dynamic program: given the previous
row, the diagonal predecessor and the current row entry so far, extend the
current row across the remaining characters of the second word. -/
def levRow (x : Char) : List Char → List Nat → Nat → Nat → List Nat
  | y :: ys, pj :: prest, pjm1, cjm1 =>
    let cj := min (pj + 1) (min (cjm1 + 1) (pjm1 + (if x = y then 0 else 1)))
    cj :: levRow x ys prest pj cj
  | _, _, _, _ => []

/-- Row-by-row Levenshtein dynamic program over the first word. -/
def levAux (ys : List Char) : List Char → List Nat → List Nat
  | [], prev => prev
  | x :: xs, prev =>
    match prev with
    | [] => []
    | p0 :: prest => levAux ys xs ((p0 + 1) :: levRow x ys prest p0 (p0 + 1))

/-- Levenshtein edit distance between two character lists (named
`editDistance` because Mathlib already declares `levenshtein`). -/
def editDistance (a b : List Char) : Nat :=
  (levAux b a (List.range (b.length + 1))).getLastD 0

/-- Lexicographic less-or-equal on character lists (an executable stand-in
for the string order, written out so it evaluates by reduction). -/
def strLeB : List Char → List Char → Bool
  | [], _ => true
  | _ :: _, [] => false
  | a :: as_, b :: bs => if a = b then strLeB as_ bs else decide (a < b)

/-- Modelled from the spec: the fuzzy "did you mean" engine — candidates
ranked by edit distance to the target (stable), capped at three, presented
in lexicographic order. -/
def suggest (target : String) (candidates : List String) : List String :=
  let scored := candidates.map (fun c => (c, editDistance target.toList c.toList))
  let top := (scored.mergeSort (fun (a b : String × Nat) => decide (a.2 ≤ b.2))).take 3
  (top.map Prod.fst).mergeSort (fun a b => strLeB a.toList b.toList)

/-! ### The expression tree and subtype check -/

/-- Modelled from the spec: the parsed template expression tree (the
minijinja expression AST is external; only the constructs the claims
exercise are modelled): literal constants, variable references, attribute
access, conditional expressions, and calls with positional and keyword
arguments. -/
inductive JExpr where
  | constInt (n : Int)
  | constStr (s : String)
  | constBool (b : Bool)
  | var (name : String)
  | getAttr (obj : JExpr) (attrName : String)
  | ifExpr (thenBody : JExpr) (cond : JExpr) (elseBody : JExpr)
  | call (callee : JExpr) (args : List JExpr) (kwargs : List (String × JExpr))

mutual

/-- Modelled from the spec: argument-compatibility check used during call
binding. A literal is accepted by its base type, a member of an expected
union is accepted, and the `unknown` sentinel is compatible in both
directions so one failure does not cascade. -/
def isSubtype : EvalType → EvalType → Bool
  | _, .unknown => true
  | .unknown, _ => true
  | .literal (.int _), .number => true
  | .literal (.int _), .int => true
  | .literal (.string _), .string => true
  | .literal (.bool _), .bool => true
  | .int, .number => true
  | .float, .number => true
  | t, .union us => EvalType.beq t (.union us) || isSubtypeAny t us
  | t, .optional u => EvalType.beq t .noneType || isSubtype t u
  | t, u => EvalType.beq t u

/-- Whether the type is compatible with some member of a union. -/
def isSubtypeAny : EvalType → List EvalType → Bool
  | _, [] => false
  | t, u :: us => isSubtype t u || isSubtypeAny t us

end

/-! ### Call-argument binding (spec section 4.5)

Modelled from the spec: positional arguments bind by declared parameter
order, named arguments bind by name, and binding failures are all collected
rather than short-circuited. The shapes of the individual diagnostics follow
the behaviour pinned down by `test_expr.rs`: an argument-count mismatch is
reported alone; otherwise per-parameter mismatch/missing diagnostics come in
declared parameter order, followed by unknown-named-argument diagnostics
whose suggestions are drawn from the still-unbound parameter names. -/

/-- Type-check the positionally bound prefix of the parameter list. -/
def bindPositional (fname : String) :
    List (String × EvalType) → List EvalType → List Diag
  | (pn, pt) :: ps, a :: rest =>
    (if isSubtype a pt then [] else [Diag.argTypeMismatch fname pn pt a]) ++
      bindPositional fname ps rest
  | _, _ => []

/-- Bind the remaining parameters by name: a type mismatch or a
missing-argument diagnostic per parameter, in declared order. -/
def bindNamed (fname : String) (kw : List (String × EvalType)) :
    List (String × EvalType) → List Diag
  | [] => []
  | (pn, pt) :: ps =>
    (match lookupList kw pn with
      | some a => if isSubtype a pt then [] else [Diag.argTypeMismatch fname pn pt a]
      | none => [Diag.missingArg fname pn]) ++
      bindNamed fname kw ps

/-- Unknown named arguments: keyword names that match no declared parameter,
each with fuzzy suggestions drawn from the parameter names that remained
unbound after positional and named binding. -/
def unknownKwDiags (fname : String) (params : List (String × EvalType))
    (unbound : List String) (kw : List (String × EvalType)) : List Diag :=
  kw.filterMap (fun nv =>
    if params.any (fun p => p.1 = nv.1) then none
    else some (Diag.unknownArg fname nv.1 (suggest nv.1 unbound)))

/-- Modelled from the spec: all binding diagnostics of one call. For the
all-optional-kwargs builtin, each provided keyword is checked against its
declared option type and unknown keywords get suggestions from the unbound
option names; for ordinary functions, an argument-count mismatch is reported
alone, otherwise positional, named, and unknown-keyword diagnostics are all
collected. -/
def bindCallDiags (fname : String) (decl : FunctionDecl)
    (posTypes : List EvalType) (kwTypes : List (String × EvalType)) : List Diag :=
  if decl.allOptionalKwargs then
    kwTypes.flatMap (fun nv =>
      match lookupList decl.params nv.1 with
      | some expected =>
        if isSubtype nv.2 expected then []
        else [Diag.argTypeMismatch fname nv.1 expected nv.2]
      | none =>
        let unbound := (decl.params.map Prod.fst).filter
          (fun p => !(kwTypes.any (fun kv => kv.1 = p)))
        [Diag.unknownArg fname nv.1 (suggest nv.1 unbound)])
  else
    if posTypes.length + kwTypes.length ≠ decl.params.length then
      [Diag.arityMismatch fname decl.params.length (posTypes.length + kwTypes.length)]
    else
      let rest := decl.params.drop posTypes.length
      let unbound := (rest.map Prod.fst).filter
        (fun pn => !(kwTypes.any (fun kv => kv.1 = pn)))
      bindPositional fname decl.params posTypes ++
        bindNamed fname kwTypes rest ++
        unknownKwDiags fname decl.params unbound kwTypes

/-- Variable resolution: registry variables first, then function names as
`FunctionRef` values. -/
def lookupVar (reg : PredefinedTypes) (n : String) : Option EvalType :=
  match lookupList reg.vars n with
  | some t => some t
  | none =>
    if (lookupList reg.functions n).isSome then some (EvalType.functionRef n) else none

/-- The diagnostics of an evaluation result (none when it succeeded). -/
def errsOf {α : Type} : Except (List Diag) α → List Diag
  | .ok _ => []
  | .error ds => ds

mutual

/-- Modelled from the spec: `evaluate(expr, registry)` (section 4.5) — a
pure recursive walk inferring a type or collecting diagnostics. Literals
infer their most specific literal type; identifier misses fail with
`UnknownVariable` plus fuzzy suggestions; property access resolves against
the class field map; conditional expressions type-check both branches
unconditionally and union the branch types; calls bind arguments collecting
every failure and only type-check to the declared return type when binding
produced zero diagnostics. Failed subexpressions contribute the `unknown`
sentinel so they do not cascade. -/
def evaluate_type (reg : PredefinedTypes) : JExpr → Except (List Diag) EvalType
  | .constInt n => pure (EvalType.literal (LiteralValue.int n))
  | .constStr s => pure (EvalType.literal (LiteralValue.string s))
  | .constBool b => pure (EvalType.literal (LiteralValue.bool b))
  | .var name =>
    match lookupVar reg name with
    | some t => pure t
    | none => throw [Diag.unknownVariable name (suggest name (reg.vars.map Prod.fst))]
  | .getAttr obj attrName => do
    let tObj ← evaluate_type reg obj
    match tObj with
    | EvalType.classRef c =>
      match (lookupList reg.classes c).bind (fun fields => lookupList fields attrName) with
      | some t => pure t
      | none => throw [Diag.unknownProperty c attrName]
    | _ => throw [Diag.unknownProperty "" attrName]
  | .ifExpr thenBody cond elseBody =>
    -- Both branches (and the condition) are evaluated unconditionally.
    let rc := evaluate_type reg cond
    let rt := evaluate_type reg thenBody
    let re := evaluate_type reg elseBody
    match rc, rt, re with
    | .ok _, .ok t1, .ok t2 => pure (EvalType.union [t1, t2])
    | _, _, _ => throw (errsOf rc ++ errsOf rt ++ errsOf re)
  | .call callee args kwargs => do
    let tCallee ← evaluate_type reg callee
    match tCallee with
    | EvalType.functionRef fname =>
      match lookupList reg.functions fname with
      | some decl =>
        let argResults := evalArgs reg args
        let kwResults := evalKwargs reg kwargs
        let argDiags := argResults.flatMap Prod.snd ++ kwResults.flatMap (fun r => r.2)
        let bindDiags := bindCallDiags fname decl (argResults.map Prod.fst)
          (kwResults.map Prod.fst)
        if (argDiags ++ bindDiags).isEmpty then pure decl.ret
        else throw (argDiags ++ bindDiags)
      | none => throw [Diag.unknownVariable fname (suggest fname (reg.functions.map Prod.fst))]
    | _ => throw [Diag.notCallable]
termination_by structural e => e

/-- Evaluate positional arguments, turning a failed argument into the
`unknown` sentinel plus its diagnostics. -/
def evalArgs (reg : PredefinedTypes) : List JExpr → List (EvalType × List Diag)
  | [] => []
  | e :: es =>
    (match evaluate_type reg e with
      | .ok t => (t, [])
      | .error ds => (EvalType.unknown, ds)) :: evalArgs reg es
termination_by structural l => l

/-- Evaluate keyword arguments, likewise suppressing cascades. -/
def evalKwargs (reg : PredefinedTypes) :
    List (String × JExpr) → List ((String × EvalType) × List Diag)
  | [] => []
  | (n, e) :: es =>
    (match evaluate_type reg e with
      | .ok t => ((n, t), [])
      | .error ds => ((n, EvalType.unknown), ds)) :: evalKwargs reg es
termination_by structural l => l

end

/-- Modelled from the spec: the recognized keyword options of the designated
builtin context function `ctx.output_format` (`baml::OutputFormat`), each
with its expected, mostly none-able type, as pinned down by
`test_expr.rs::test_output_format`. -/
def outputFormatParams : List (String × EvalType) :=
  [("prefix", EvalType.union [EvalType.noneType, EvalType.string]),
   ("or_splitter", EvalType.union [EvalType.noneType, EvalType.string]),
   ("enum_value_prefix", EvalType.union [EvalType.noneType, EvalType.string]),
   ("always_hoist_enums", EvalType.union [EvalType.noneType, EvalType.bool]),
   ("hoisted_class_prefix", EvalType.union [EvalType.noneType, EvalType.string])]

/-- Modelled from the spec: the default `PredefinedTypes` registry for the
prompt context — the implicit context variables (`ctx`, `_`), the context
class exposing `output_format`, and the builtin output-format function. -/
def default_types : PredefinedTypes :=
  { vars := [("_", EvalType.classRef "jinja::Loop"),
             ("ctx", EvalType.classRef "jinja::Context")],
    classes := [("jinja::Context",
                  [("output_format", EvalType.functionRef "baml::OutputFormat")]),
                ("jinja::Loop", [])],
    functions := [("baml::OutputFormat",
      { ret := EvalType.string, params := outputFormatParams, allOptionalKwargs := true })] }

/-- The signature of `SomeFunc(arg: bool) -> float` from
`test_call_function`. -/
def someFuncDecl : FunctionDecl :=
  { ret := EvalType.float, params := [("arg", EvalType.bool)],
    allOptionalKwargs := false }

/-- The signature of `AnotherFunc(arg: bool, arg2: string, arg3: number)
-> float` from the final stage of `test_call_function`. -/
def anotherFuncDecl : FunctionDecl :=
  { ret := EvalType.float,
    params := [("arg", EvalType.bool), ("arg2", EvalType.string),
               ("arg3", EvalType.number)],
    allOptionalKwargs := false }

/-- The registry of `test_call_function` at its final stage: `SomeFunc` and
the three-parameter `AnotherFunc`. -/
def callTestTypes : PredefinedTypes :=
  { vars := [],
    classes := [],
    functions := [("SomeFunc", someFuncDecl), ("AnotherFunc", anotherFuncDecl)] }

/-! ### Concrete instances used by the claim theorems -/

/-- The number of top-level `List` wrappers of a lowered type. -/
def listDepth : FieldType → Nat
  | FieldType.list t => listDepth t + 1
  | _ => 0

/-- A list field type with declared dimension 0 over a string element. -/
def astListDims0 : AstFieldType :=
  AstFieldType.list FieldArity.required
    (AstFieldType.primitive FieldArity.required TypeValue.string []) 0 []

/-- The same list field type with declared dimension 1. -/
def astListDims1 : AstFieldType :=
  AstFieldType.list FieldArity.required
    (AstFieldType.primitive FieldArity.required TypeValue.string []) 1 []

/-- An optional union of one string member, with no attributes. -/
def astOptUnion : AstFieldType :=
  AstFieldType.union FieldArity.optional
    [AstFieldType.primitive FieldArity.required TypeValue.string []] []

/-- An `assert` attribute with a single jinja-expression argument. -/
def assertAttr : AstAttribute :=
  { name := "assert", arguments := [AstExpression.jinjaExpressionValue "this|length > 0"] }

/-- An optional string primitive carrying the `assert` constraint. -/
def astOptConstrainedString : AstFieldType :=
  AstFieldType.primitive FieldArity.optional TypeValue.string [assertAttr]

/-- A parser database whose only entities are two template strings declared
in reverse lexicographic order. -/
def dbTemplatesOutOfOrder : ParserDatabase :=
  { resolver := emptyResolver, enums := [], classes := [], finite_recursive_cycles := [],
    functions := [], clients := [], retry_policies := [],
    template_strings :=
      [{ name := "b", input := none, content := "B" },
       { name := "a", input := none, content := "A" }] }

/-- The IR this database assembles to: every sorted collection is empty and
the template strings stay in declaration order. -/
def irTemplatesOutOfOrder : IR.IntermediateRepr :=
  { enums := [], classes := [], finite_recursive_cycles := [], functions := [],
    clients := [], retry_policies := [],
    template_strings :=
      [⟨{ name := "b", params := [], content := "B" }⟩,
       ⟨{ name := "a", params := [], content := "A" }⟩] }

/-- A class with one field whose type is an unresolvable symbol. -/
def badClass : AstClass :=
  { name := "C",
    static_fields :=
      [{ name := "f", expr := some (AstFieldType.symbol FieldArity.required "Missing" []) }],
    inputs := none }

/-- A database containing only `badClass`. -/
def badDb : ParserDatabase :=
  { resolver := emptyResolver, enums := [], classes := [badClass],
    finite_recursive_cycles := [], functions := [], clients := [],
    retry_policies := [], template_strings := [] }

/-- Occurrence of an environment-variable name as an `Identifier::ENV` leaf
anywhere inside an IR expression, descending through `List` and `Map`
expressions. -/
inductive EnvOccurs (x : String) : Expression → Prop where
  | env : EnvOccurs x (Expression.identifier (Identifier.env x))
  | inList {e : Expression} {es : List Expression} :
      EnvOccurs x e → e ∈ es → EnvOccurs x (Expression.list es)
  | inMapKey {k v : Expression} {ps : List (Expression × Expression)} :
      EnvOccurs x k → (k, v) ∈ ps → EnvOccurs x (Expression.map ps)
  | inMapValue {k v : Expression} {ps : List (Expression × Expression)} :
      EnvOccurs x v → (k, v) ∈ ps → EnvOccurs x (Expression.map ps)

/-- A client whose options nest the env identifier `FOO` twice inside
lists. -/
def exampleNestedClient : IR.Client :=
  { name := "client", provider := "openai", retry_policy_id := none,
    options :=
      [("api_key", Expression.list
        [Expression.identifier (Identifier.env "FOO"),
         Expression.list [Expression.identifier (Identifier.env "FOO")]])] }

/-- An IR holding only `exampleNestedClient`. -/
def exampleNestedIR : IR.IntermediateRepr :=
  { enums := [], classes := [], finite_recursive_cycles := [], functions := [],
    clients := [⟨exampleNestedClient⟩], retry_policies := [], template_strings := [] }

/-- The C6 call expression: AnotherFunc(true, arg2 = "1", arg4 = 1). -/
def c6Call : JExpr :=
  JExpr.call (JExpr.var "AnotherFunc") [JExpr.constBool true]
    [("arg2", JExpr.constStr "1"), ("arg4", JExpr.constInt 1)]

/-- A correctly bound call: AnotherFunc(true, arg2 = "1", arg3 = 2). -/
def c6GoodCall : JExpr :=
  JExpr.call (JExpr.var "AnotherFunc") [JExpr.constBool true]
    [("arg2", JExpr.constStr "1"), ("arg3", JExpr.constInt 2)]

/-- The C9 call: ctx.output_format(prefix = "1", unknown = 1). -/
def c9UnknownCall : JExpr :=
  JExpr.call (JExpr.getAttr (JExpr.var "ctx") "output_format") []
    [("prefix", JExpr.constStr "1"), ("unknown", JExpr.constInt 1)]

/-! ## Claim theorems -/

/-- C1: the claim says lowering a list with declared dimension zero must not
produce a one-dimensional list. The code disagrees: lowering the
dimension-zero list produces exactly one `List` wrapper, indistinguishable
from declared dimension one — the `for _ in 1u32..dims` loop adds `dims - 1`
wrappers on top of an unconditional first wrapper, which the source itself
flags: "NB: potential bug: this hands back a 1D list when dims == 0". -/
theorem c1_list_dimension_zero_collapses :
    AstFieldType.repr fooResolver astListDims0 =
      Except.ok (FieldType.list (FieldType.primitive TypeValue.string)) ∧
    listDepth (FieldType.list (FieldType.primitive TypeValue.string)) = 1 ∧
    AstFieldType.repr fooResolver astListDims0 =
      AstFieldType.repr fooResolver astListDims1 :=
  ⟨rfl, rfl, rfl⟩

/-- The split helper returns `none` exactly when the string has no slash. -/
theorem splitOnceSlash_eq_none_iff :
    ∀ s : List Char, splitOnceSlash s = none ↔ containsSlash s = false
  | [] => by simp [splitOnceSlash, containsSlash]
  | c :: rest => by
    by_cases hc : c = '/'
    · simp [splitOnceSlash, containsSlash, hc]
    · cases hr : splitOnceSlash rest with
      | none =>
        have ih := (splitOnceSlash_eq_none_iff rest).mp hr
        simp [splitOnceSlash, containsSlash, hc, hr]
        simpa [containsSlash] using ih
      | some q =>
        have ih : ¬ containsSlash rest = false := by
          intro hf
          rw [← splitOnceSlash_eq_none_iff rest] at hf
          rw [hf] at hr
          cases hr
        simp [splitOnceSlash, containsSlash, hc, hr]
        simpa [containsSlash] using ih

/-- When `splitOnceSlash` succeeds, the pieces reassemble around the first
slash and the left piece is slash-free. -/
theorem splitOnceSlash_eq_some :
    ∀ (s p m : List Char), splitOnceSlash s = some (p, m) →
      s = p ++ '/' :: m ∧ containsSlash p = false
  | [], p, m => by intro h; cases h
  | c :: rest, p, m => by
    by_cases hc : c = '/'
    · subst hc
      simp [splitOnceSlash]
      intro hp hm
      subst hp
      subst hm
      simp [containsSlash]
    · cases hr : splitOnceSlash rest with
      | none =>
        intro h
        simp [splitOnceSlash, hc, hr] at h
      | some q =>
        intro h
        simp [splitOnceSlash, hc, hr] at h
        have ih := splitOnceSlash_eq_some rest q.1 q.2 (by rw [hr])
        obtain ⟨hp, hm⟩ := h
        subst hp
        subst hm
        refine ⟨by rw [List.cons_append, ← ih.1], ?_⟩
        have h2 := ih.2
        simp [containsSlash] at h2 ⊢
        exact ⟨hc, h2⟩

/-- C10: `ClientSpec::new_from_id` splits at the first slash into
`Shorthand(provider, model)` exactly when the id contains a slash and wraps
the id in `Named` otherwise, and `as_str` inverts it: the round trip is the
identity on strings. -/
theorem c10_client_spec_roundtrip :
    (∀ s : List Char, ClientSpec.as_str (ClientSpec.new_from_id s) = s) ∧
    (∀ s : List Char, containsSlash s = true →
      ∃ p m, ClientSpec.new_from_id s = ClientSpec.shorthand p m ∧
        s = p ++ '/' :: m ∧ containsSlash p = false) ∧
    (∀ s : List Char, containsSlash s = false →
      ClientSpec.new_from_id s = ClientSpec.named s) := by
  have hshort : ∀ (s : List Char) (q : List Char × List Char),
      splitOnceSlash s = some q → ClientSpec.new_from_id s = ClientSpec.shorthand q.1 q.2 := by
    intro s q hs
    have hc : containsSlash s = true := by
      by_contra hf
      rw [Bool.not_eq_true] at hf
      rw [← splitOnceSlash_eq_none_iff] at hf
      rw [hf] at hs
      cases hs
    simp [ClientSpec.new_from_id, hc, hs]
  refine ⟨?_, ?_, ?_⟩
  · intro s
    cases hs : splitOnceSlash s with
    | none =>
      have hc := (splitOnceSlash_eq_none_iff s).mp hs
      simp [ClientSpec.new_from_id, hc, ClientSpec.as_str]
    | some q =>
      have hq := splitOnceSlash_eq_some s q.1 q.2 (by rw [hs])
      rw [hshort s q hs]
      simp [ClientSpec.as_str, hq.1]
  · intro s h
    cases hs : splitOnceSlash s with
    | none =>
      rw [splitOnceSlash_eq_none_iff] at hs
      rw [hs] at h
      cases h
    | some q =>
      have hq := splitOnceSlash_eq_some s q.1 q.2 (by rw [hs])
      exact ⟨q.1, q.2, hshort s q hs, hq.1, hq.2⟩
  · intro s h
    simp [ClientSpec.new_from_id, h]

/-- Witness for C10 at the shorthand id "openai/gpt-4" and the named id
"GPT4Client". -/
theorem c10_client_spec_roundtrip_witness :
    (ClientSpec.as_str (ClientSpec.new_from_id "openai/gpt-4".toList) =
      "openai/gpt-4".toList) ∧
    (∃ p m, ClientSpec.new_from_id "openai/gpt-4".toList = ClientSpec.shorthand p m ∧
      "openai/gpt-4".toList = p ++ '/' :: m ∧ containsSlash p = false) ∧
    (ClientSpec.new_from_id "GPT4Client".toList = ClientSpec.named "GPT4Client".toList) :=
  ⟨c10_client_spec_roundtrip.1 _,
   c10_client_spec_roundtrip.2.1 _ (by decide),
   c10_client_spec_roundtrip.2.2 _ (by decide)⟩

/-- Bind on an `Except` error propagates the error. -/
theorem except_error_bind {ε α β : Type} (e : ε) (f : α → Except ε β) :
    ((Except.error e : Except ε α) >>= f) = Except.error e := rfl

/-- Bind on an `Except` success applies the continuation. -/
theorem except_ok_bind {ε α β : Type} (a : α) (f : α → Except ε β) :
    ((Except.ok a : Except ε α) >>= f) = f a := rfl

/-- Map on an `Except` error propagates the error. -/
theorem except_map_error {ε α β : Type} (e : ε) (f : α → β) :
    (Except.error e : Except ε α).map f = Except.error e := rfl

/-- Map on an `Except` success applies the function. -/
theorem except_map_ok {ε α β : Type} (a : α) (f : α → β) :
    (Except.ok a : Except ε α).map f = Except.ok (f a) := rfl

/-- Pure in the `Except` monad is `ok`. -/
theorem except_pure {ε α : Type} (a : α) :
    (pure a : Except ε α) = Except.ok a := rfl

/-- Throw in the `Except` monad is `error`. -/
theorem except_throw {ε α : Type} (e : ε) :
    (throw e : Except ε α) = Except.error e := rfl

/-- Member-list lowering distributes over append (it is elementwise and
fails on the first error). -/
theorem reprList_append (db : TypeResolver) :
    ∀ (xs ys : List AstFieldType),
      AstFieldType.reprList db (xs ++ ys) = do
        let rx ← AstFieldType.reprList db xs
        let ry ← AstFieldType.reprList db ys
        pure (rx ++ ry)
  | [], ys => by
    cases h : AstFieldType.reprList db ys <;>
      simp [AstFieldType.reprList, h, except_error_bind, except_ok_bind, except_pure]
  | x :: xs, ys => by
    have ih := reprList_append db xs ys
    cases hx : AstFieldType.repr db x with
    | error e =>
      simp [AstFieldType.reprList, hx, except_error_bind]
    | ok r =>
      cases hxs : AstFieldType.reprList db xs with
      | error e =>
        simp [AstFieldType.reprList, hx, hxs, except_error_bind, except_ok_bind, ih]
      | ok rs =>
        cases hys : AstFieldType.reprList db ys with
        | error e =>
          simp [AstFieldType.reprList, hx, hxs, hys, except_error_bind, except_ok_bind,
            except_pure, ih]
        | ok rys =>
          simp [AstFieldType.reprList, hx, hxs, hys, except_error_bind, except_ok_bind,
            except_pure, ih]

/-- C4: lowering a union lowers each member in order and appends exactly one
`Primitive(Null)` member when and only when the union arity is optional; the
union is never wrapped in `Optional`, and an optional union lowers to the
same representation as a required union with an explicit null-typed member
appended. (Stated for union nodes with no attached constraints; a constraint
wraps the same union base in `Constrained`.) -/
theorem c4_union_lowering (db : TypeResolver) (arity : FieldArity)
    (ts : List AstFieldType) (attrs : List AstAttribute)
    (hc : attrConstraints attrs = []) :
    (AstFieldType.repr db (AstFieldType.union arity ts attrs) =
      (AstFieldType.reprList db ts).map (fun tys =>
        FieldType.union (tys ++
          (if arity.is_optional then [FieldType.primitive TypeValue.null] else [])))) ∧
    (AstFieldType.repr db (AstFieldType.union FieldArity.optional ts attrs) =
      AstFieldType.repr db (AstFieldType.union FieldArity.required
        (ts ++ [AstFieldType.primitive FieldArity.required TypeValue.null []]) attrs)) ∧
    (∀ r, AstFieldType.repr db (AstFieldType.union arity ts attrs) = Except.ok r →
      ∀ inner, r ≠ FieldType.optional inner) := by
  have hbase : ∀ (a : FieldArity) (ms : List AstFieldType),
      AstFieldType.repr db (AstFieldType.union a ms attrs) =
        (AstFieldType.reprList db ms).map (fun tys =>
          FieldType.union (tys ++
            (if a.is_optional then [FieldType.primitive TypeValue.null] else []))) := by
    intro a ms
    cases h : AstFieldType.reprList db ms with
    | error e =>
      simp [AstFieldType.repr, AstFieldType.attrsOf, hc, h, except_error_bind,
        except_map_error]
    | ok tys =>
      cases a <;>
        simp [AstFieldType.repr, AstFieldType.attrsOf, hc, h, except_ok_bind,
          except_map_ok, except_pure, FieldArity.is_optional]
  refine ⟨hbase arity ts, ?_, ?_⟩
  · rw [hbase FieldArity.optional ts,
      hbase FieldArity.required (ts ++ [AstFieldType.primitive FieldArity.required TypeValue.null []]),
      reprList_append db ts [AstFieldType.primitive FieldArity.required TypeValue.null []]]
    have hnull : AstFieldType.reprList db
        [AstFieldType.primitive FieldArity.required TypeValue.null []] =
        Except.ok [FieldType.primitive TypeValue.null] := rfl
    rw [hnull]
    cases h : AstFieldType.reprList db ts <;>
      simp [except_error_bind, except_ok_bind, except_pure, except_map_error,
        except_map_ok, FieldArity.is_optional]
  · intro r hr inner
    rw [hbase arity ts] at hr
    cases h : AstFieldType.reprList db ts with
    | error e => rw [h] at hr; cases hr
    | ok tys =>
      rw [h, except_map_ok] at hr
      cases hr
      simp

/-- Witness for C4 at a one-member union of strings with no constraints. -/
theorem c4_union_lowering_witness :
    (AstFieldType.repr fooResolver (AstFieldType.union FieldArity.optional
        [AstFieldType.primitive FieldArity.required TypeValue.string []] []) =
      (AstFieldType.reprList fooResolver
          [AstFieldType.primitive FieldArity.required TypeValue.string []]).map (fun tys =>
        FieldType.union (tys ++ [FieldType.primitive TypeValue.null]))) ∧
    (AstFieldType.repr fooResolver (AstFieldType.union FieldArity.optional
        [AstFieldType.primitive FieldArity.required TypeValue.string []] []) =
      AstFieldType.repr fooResolver (AstFieldType.union FieldArity.required
        ([AstFieldType.primitive FieldArity.required TypeValue.string []] ++
          [AstFieldType.primitive FieldArity.required TypeValue.null []]) [])) := by
  have h := c4_union_lowering fooResolver FieldArity.optional
    [AstFieldType.primitive FieldArity.required TypeValue.string []] [] rfl
  exact ⟨h.1, h.2.1⟩

/-- C3 counterexample: arity handling and base-type lowering do not commute
for every type shape. For an optional union, lowering injects a `Null`
member rather than wrapping in `Optional`; for a type with its own
constraints, `Constrained` is wrapped outside the `Optional` rather than
inside. Both concrete lowerings differ from
`Optional(lower(same type with Required arity))`. -/
theorem c3_optional_arity_counterexample :
    (AstFieldType.repr fooResolver astOptUnion ≠
      (AstFieldType.repr fooResolver (astOptUnion.withArity FieldArity.required)).map
        FieldType.optional) ∧
    (AstFieldType.repr fooResolver astOptConstrainedString ≠
      (AstFieldType.repr fooResolver
          (astOptConstrainedString.withArity FieldArity.required)).map
        FieldType.optional) := by
  constructor
  · intro h
    have h1 : AstFieldType.repr fooResolver astOptUnion =
        Except.ok (FieldType.union
          [FieldType.primitive TypeValue.string, FieldType.primitive TypeValue.null]) := rfl
    have h2 : (AstFieldType.repr fooResolver
          (astOptUnion.withArity FieldArity.required)).map FieldType.optional =
        Except.ok (FieldType.optional
          (FieldType.union [FieldType.primitive TypeValue.string])) := rfl
    rw [h1, h2] at h
    simp at h
  · intro h
    have h1 : AstFieldType.repr fooResolver astOptConstrainedString =
        Except.ok (FieldType.constrained
          (FieldType.optional (FieldType.primitive TypeValue.string))
          [{ level := ConstraintLevel.assert, expression := "this|length > 0",
             label := none }]) := rfl
    have h2 : (AstFieldType.repr fooResolver
          (astOptConstrainedString.withArity FieldArity.required)).map FieldType.optional =
        Except.ok (FieldType.optional (FieldType.constrained
          (FieldType.primitive TypeValue.string)
          [{ level := ConstraintLevel.assert, expression := "this|length > 0",
             label := none }])) := rfl
    rw [h1, h2] at h
    simp at h

/-- C3 amended: for every AST field type with Optional arity that carries no
constraints of its own and is not a union at top level, lowering equals
`Optional` applied to the lowering of the same type with Required arity. -/
theorem c3_optional_arity_commutes (db : TypeResolver) (t : AstFieldType)
    (har : t.arityOf = FieldArity.optional)
    (hc : attrConstraints t.attrsOf = [])
    (hu : t.isUnion = false) :
    AstFieldType.repr db t =
      (AstFieldType.repr db (t.withArity FieldArity.required)).map FieldType.optional := by
  cases t with
  | primitive ar tv attrs =>
    simp only [AstFieldType.arityOf] at har
    subst har
    simp only [AstFieldType.attrsOf] at hc
    simp [AstFieldType.repr, AstFieldType.withArity, AstFieldType.attrsOf, hc,
      FieldArity.is_optional, except_ok_bind, except_pure, except_map_ok]
  | literal ar v attrs =>
    simp only [AstFieldType.arityOf] at har
    subst har
    simp only [AstFieldType.attrsOf] at hc
    simp [AstFieldType.repr, AstFieldType.withArity, AstFieldType.attrsOf, hc,
      FieldArity.is_optional, except_ok_bind, except_pure, except_map_ok]
  | symbol ar n attrs =>
    simp only [AstFieldType.arityOf] at har
    subst har
    simp only [AstFieldType.attrsOf] at hc
    cases hf : db.find_type n with
    | none =>
      simp [AstFieldType.repr, AstFieldType.withArity, AstFieldType.attrsOf, hc, hf,
        except_throw, except_error_bind, except_map_error]
    | some ft =>
      cases ft <;>
        simp [AstFieldType.repr, AstFieldType.withArity, AstFieldType.attrsOf, hc, hf,
          type_with_arity, except_ok_bind, except_pure, except_map_ok]
  | list ar e d attrs =>
    simp only [AstFieldType.arityOf] at har
    subst har
    simp only [AstFieldType.attrsOf] at hc
    cases hr : AstFieldType.repr db e with
    | error err =>
      simp [AstFieldType.repr, AstFieldType.withArity, AstFieldType.attrsOf, hc, hr,
        except_error_bind, except_map_error]
    | ok er =>
      simp [AstFieldType.repr, AstFieldType.withArity, AstFieldType.attrsOf, hc, hr,
        FieldArity.is_optional, except_ok_bind, except_pure, except_map_ok]
  | map ar k v attrs =>
    simp only [AstFieldType.arityOf] at har
    subst har
    simp only [AstFieldType.attrsOf] at hc
    cases hk : AstFieldType.repr db k with
    | error err =>
      simp [AstFieldType.repr, AstFieldType.withArity, AstFieldType.attrsOf, hc, hk,
        except_error_bind, except_map_error]
    | ok kr =>
      cases hv : AstFieldType.repr db v with
      | error err =>
        simp [AstFieldType.repr, AstFieldType.withArity, AstFieldType.attrsOf, hc, hk, hv,
          except_error_bind, except_ok_bind, except_map_error]
      | ok vr =>
        simp [AstFieldType.repr, AstFieldType.withArity, AstFieldType.attrsOf, hc, hk, hv,
          FieldArity.is_optional, except_ok_bind, except_pure, except_map_ok]
  | union ar ms attrs =>
    simp [AstFieldType.isUnion] at hu
  | tuple ar ms attrs =>
    simp only [AstFieldType.arityOf] at har
    subst har
    simp only [AstFieldType.attrsOf] at hc
    cases hr : AstFieldType.reprList db ms with
    | error err =>
      simp [AstFieldType.repr, AstFieldType.withArity, AstFieldType.attrsOf, hc, hr,
        except_error_bind, except_map_error]
    | ok rs =>
      simp [AstFieldType.repr, AstFieldType.withArity, AstFieldType.attrsOf, hc, hr,
        type_with_arity, except_ok_bind, except_pure, except_map_ok]

/-- Witness for the amended C3 at an optional int primitive. -/
theorem c3_optional_arity_commutes_witness :
    AstFieldType.repr fooResolver
        (AstFieldType.primitive FieldArity.optional TypeValue.int []) =
      (AstFieldType.repr fooResolver
          ((AstFieldType.primitive FieldArity.optional TypeValue.int []).withArity
            FieldArity.required)).map FieldType.optional :=
  c3_optional_arity_commutes fooResolver
    (AstFieldType.primitive FieldArity.optional TypeValue.int []) rfl rfl rfl

/-- Sorting under a name comparator yields a pairwise name-ordered list. -/
theorem pairwise_mergeSort_names {α : Type} (name : α → String) (l : List α) :
    List.Pairwise (fun a b => name a ≤ name b)
      (l.mergeSort (fun a b => decide (name a ≤ name b))) := by
  have h : List.Pairwise
      (fun a b => (fun a b => decide (name a ≤ name b)) a b = true)
      (l.mergeSort (fun a b => decide (name a ≤ name b))) := by
    apply List.sorted_mergeSort
    · intro a b c hab hbc
      simp only [decide_eq_true_eq] at hab hbc ⊢
      exact le_trans hab hbc
    · intro a b
      simp only [Bool.or_eq_true, decide_eq_true_eq]
      exact le_total (name a) (name b)
  exact h.imp (fun hab => by simpa using hab)

/-- The names of a list sorted by name are sorted. -/
theorem sorted_names_mergeSort {α : Type} (name : α → String) (l : List α) :
    List.Sorted (fun a b : String => a ≤ b)
      ((l.mergeSort (fun a b => decide (name a ≤ name b))).map name) :=
  List.pairwise_map.mpr (pairwise_mergeSort_names name l)

attribute [local semireducible] List.mergeSort List.merge

/-- C2 counterexample: `from_parser_database` leaves the template-string
collection in declaration order — lowering a database with template strings
declared as `b`, `a` succeeds and keeps them as `["b", "a"]`, which is not
sorted; so not every entity collection is sorted by name. -/
theorem c2_template_strings_unsorted :
    ((from_parser_database dbTemplatesOutOfOrder).map
        (fun ir => ir.template_strings.map (fun n => n.elem.name)) =
      Except.ok ["b", "a"]) ∧
    ¬ List.Sorted (fun a b : String => a ≤ b) ["b", "a"] := by
  constructor
  · rfl
  · intro h
    have hba := List.rel_of_sorted_cons h "a" (by simp)
    refine absurd hba ?_
    simp [String.le_iff_toList_le]
    decide

/-- C2 amended: after `from_parser_database` succeeds, the enum, class,
function, client, and retry-policy collections are each sorted
lexicographically by entity name; template strings are not sorted and keep
declaration order, so byte-identical serialized output regardless of
declaration order holds for those five collections only. -/
theorem c2_entity_collections_sorted (db : ParserDatabase) (ir : IR.IntermediateRepr)
    (h : from_parser_database db = Except.ok ir) :
    List.Sorted (fun a b : String => a ≤ b) (ir.enums.map (fun n => n.elem.name)) ∧
    List.Sorted (fun a b : String => a ≤ b) (ir.classes.map (fun n => n.elem.name)) ∧
    List.Sorted (fun a b : String => a ≤ b) (ir.functions.map (fun n => n.elem.name)) ∧
    List.Sorted (fun a b : String => a ≤ b) (ir.clients.map (fun n => n.elem.name)) ∧
    List.Sorted (fun a b : String => a ≤ b) (ir.retry_policies.map (fun n => n.elem.name)) := by
  simp only [from_parser_database] at h
  cases h1 : db.enums.mapM AstEnum.node with
  | error e => rw [h1, except_error_bind] at h; cases h
  | ok enums =>
  rw [h1, except_ok_bind] at h
  cases h2 : db.classes.mapM (AstClass.node db.resolver) with
  | error e => rw [h2, except_error_bind] at h; cases h
  | ok classes =>
  rw [h2, except_ok_bind] at h
  cases h3 : db.functions.mapM (AstFunction.node db.resolver) with
  | error e => rw [h3, except_error_bind] at h; cases h
  | ok functions =>
  rw [h3, except_ok_bind] at h
  cases h4 : db.clients.mapM AstClient.node with
  | error e => rw [h4, except_error_bind] at h; cases h
  | ok clients =>
  rw [h4, except_ok_bind] at h
  cases h5 : db.retry_policies.mapM AstRetryPolicy.node with
  | error e => rw [h5, except_error_bind] at h; cases h
  | ok retry_policies =>
  rw [h5, except_ok_bind] at h
  cases h6 : db.template_strings.mapM (AstTemplateString.node db.resolver) with
  | error e => rw [h6, except_error_bind] at h; cases h
  | ok template_strings =>
  rw [h6, except_ok_bind, except_pure] at h
  cases h
  exact ⟨sorted_names_mergeSort _ _, sorted_names_mergeSort _ _,
    sorted_names_mergeSort _ _, sorted_names_mergeSort _ _,
    sorted_names_mergeSort _ _⟩

/-- Witness for the amended C2 at the two-template-string database. -/
theorem c2_entity_collections_sorted_witness :
    List.Sorted (fun a b : String => a ≤ b)
      (irTemplatesOutOfOrder.enums.map (fun n => n.elem.name)) ∧
    List.Sorted (fun a b : String => a ≤ b)
      (irTemplatesOutOfOrder.classes.map (fun n => n.elem.name)) ∧
    List.Sorted (fun a b : String => a ≤ b)
      (irTemplatesOutOfOrder.functions.map (fun n => n.elem.name)) ∧
    List.Sorted (fun a b : String => a ≤ b)
      (irTemplatesOutOfOrder.clients.map (fun n => n.elem.name)) ∧
    List.Sorted (fun a b : String => a ≤ b)
      (irTemplatesOutOfOrder.retry_policies.map (fun n => n.elem.name)) :=
  c2_entity_collections_sorted dbTemplatesOutOfOrder irTemplatesOutOfOrder rfl

/-- Lowering a list of enums never fails and keeps each name and value
list. -/
theorem mapM_enum_ok : ∀ l : List AstEnum,
    l.mapM AstEnum.node =
      Except.ok (l.map (fun e => ⟨{ name := e.name, values := e.values }⟩))
  | [] => by rw [List.mapM_nil]; rfl
  | e :: es => by
    rw [List.mapM_cons, mapM_enum_ok es]
    rfl

/-- If some element of a list fails to lower, lowering the whole list with
`mapM` fails (with the first error encountered). -/
theorem mapM_error_of_mem {α β : Type} (f : α → Except String β) :
    ∀ (l : List α) (a : α), a ∈ l → (∃ e, f a = Except.error e) →
      ∃ e2, l.mapM f = Except.error e2
  | [], a, ha, _ => absurd ha (List.not_mem_nil a)
  | b :: bs, a, ha, ⟨e, he⟩ => by
    rw [List.mapM_cons]
    cases hb : f b with
    | error eb => exact ⟨eb, rfl⟩
    | ok vb =>
      rcases List.mem_cons.mp ha with rfl | hmem
      · rw [hb] at he; cases he
      · obtain ⟨e2, h2⟩ := mapM_error_of_mem f bs a hmem ⟨e, he⟩
        refine ⟨e2, ?_⟩
        rw [except_ok_bind, h2]
        rfl

/-- C8: lowering a symbol that resolves to neither a class nor an enum
returns the hard error `Field type uses unresolvable local identifier`
(not a collectable diagnostic), and because `from_parser_database` collects
lowering results fail-fast, a class whose lowering fails aborts IR assembly
for the whole build. -/
theorem c8_unresolvable_identifier_aborts :
    (∀ (db : TypeResolver) (arity : FieldArity) (idn : String)
        (attrs : List AstAttribute),
      db.find_type idn = none →
      AstFieldType.repr db (AstFieldType.symbol arity idn attrs) =
        Except.error "Field type uses unresolvable local identifier") ∧
    (∀ (db : ParserDatabase) (c : AstClass),
      c ∈ db.classes → (∃ e, AstClass.node db.resolver c = Except.error e) →
      ∃ e2, from_parser_database db = Except.error e2) := by
  constructor
  · intro db arity idn attrs hf
    simp [AstFieldType.repr, AstFieldType.attrsOf, hf, except_throw, except_error_bind]
  · intro db c hcmem hfail
    obtain ⟨e2, hcls⟩ := mapM_error_of_mem _ db.classes c hcmem hfail
    refine ⟨e2, ?_⟩
    simp only [from_parser_database]
    rw [mapM_enum_ok db.enums, except_ok_bind, hcls, except_error_bind]

/-- Witness for C8: the unresolvable symbol `Missing` errors, and the whole
assembly of `badDb` errors. -/
theorem c8_unresolvable_identifier_aborts_witness :
    (AstFieldType.repr emptyResolver (AstFieldType.symbol FieldArity.required "Missing" []) =
      Except.error "Field type uses unresolvable local identifier") ∧
    (∃ e2, from_parser_database badDb = Except.error e2) :=
  ⟨c8_unresolvable_identifier_aborts.1 emptyResolver FieldArity.required "Missing" [] rfl,
   c8_unresolvable_identifier_aborts.2 badDb badClass (by simp [badDb])
     ⟨"Field type uses unresolvable local identifier", rfl⟩⟩

mutual

/-- Membership in `Expression::required_env_vars` is exactly `ENV`-leaf
occurrence. -/
theorem mem_required_env_vars : ∀ (x : String) (e : Expression),
    x ∈ Expression.required_env_vars e ↔ EnvOccurs x e
  | x, Expression.identifier (Identifier.env k) => by
    simp only [Expression.required_env_vars, List.mem_singleton]
    constructor
    · rintro rfl
      exact EnvOccurs.env
    · rintro h
      cases h
      rfl
  | x, Expression.identifier (Identifier.ref p) => by
    simp only [Expression.required_env_vars, List.not_mem_nil, false_iff]
    rintro h
    cases h
  | x, Expression.identifier (Identifier.localVar l) => by
    simp only [Expression.required_env_vars, List.not_mem_nil, false_iff]
    rintro h
    cases h
  | x, Expression.identifier (Identifier.primitive p) => by
    simp only [Expression.required_env_vars, List.not_mem_nil, false_iff]
    rintro h
    cases h
  | x, Expression.bool b => by
    simp only [Expression.required_env_vars, List.not_mem_nil, false_iff]
    rintro h
    cases h
  | x, Expression.numeric v => by
    simp only [Expression.required_env_vars, List.not_mem_nil, false_iff]
    rintro h
    cases h
  | x, Expression.string s => by
    simp only [Expression.required_env_vars, List.not_mem_nil, false_iff]
    rintro h
    cases h
  | x, Expression.rawString s => by
    simp only [Expression.required_env_vars, List.not_mem_nil, false_iff]
    rintro h
    cases h
  | x, Expression.jinjaExpression j => by
    simp only [Expression.required_env_vars, List.not_mem_nil, false_iff]
    rintro h
    cases h
  | x, Expression.list es => by
    simp only [Expression.required_env_vars]
    rw [mem_required_env_vars_list x es]
    constructor
    · rintro ⟨e, hmem, hocc⟩
      exact EnvOccurs.inList hocc hmem
    · rintro h
      cases h with
      | inList hocc hmem => exact ⟨_, hmem, hocc⟩
  | x, Expression.map ps => by
    simp only [Expression.required_env_vars]
    rw [mem_required_env_vars_pairs x ps]
    constructor
    · rintro ⟨⟨k, v⟩, hmem, hocc | hocc⟩
      · exact EnvOccurs.inMapKey hocc hmem
      · exact EnvOccurs.inMapValue hocc hmem
    · rintro h
      cases h with
      | inMapKey hocc hmem => exact ⟨_, hmem, Or.inl hocc⟩
      | inMapValue hocc hmem => exact ⟨_, hmem, Or.inr hocc⟩

/-- List version of `mem_required_env_vars`. -/
theorem mem_required_env_vars_list : ∀ (x : String) (es : List Expression),
    x ∈ Expression.required_env_vars_list es ↔ ∃ e, e ∈ es ∧ EnvOccurs x e
  | x, [] => by
    simp [Expression.required_env_vars_list]
  | x, e :: es => by
    simp only [Expression.required_env_vars_list, List.mem_append]
    rw [mem_required_env_vars x e, mem_required_env_vars_list x es]
    constructor
    · rintro (h | ⟨e2, hmem, hocc⟩)
      · exact ⟨e, List.mem_cons_self e es, h⟩
      · exact ⟨e2, List.mem_cons_of_mem e hmem, hocc⟩
    · rintro ⟨e2, hmem, hocc⟩
      rcases List.mem_cons.mp hmem with rfl | hmem2
      · exact Or.inl hocc
      · exact Or.inr ⟨e2, hmem2, hocc⟩

/-- Pair (map entry) version of `mem_required_env_vars`. -/
theorem mem_required_env_vars_pairs : ∀ (x : String) (ps : List (Expression × Expression)),
    x ∈ Expression.required_env_vars_pairs ps ↔
      ∃ kv, kv ∈ ps ∧ (EnvOccurs x kv.1 ∨ EnvOccurs x kv.2)
  | x, [] => by
    simp [Expression.required_env_vars_pairs]
  | x, (k, v) :: ps => by
    simp only [Expression.required_env_vars_pairs, List.mem_append]
    rw [mem_required_env_vars x k, mem_required_env_vars x v,
      mem_required_env_vars_pairs x ps]
    constructor
    · rintro ((hk | hv) | ⟨kv, hmem, hocc⟩)
      · exact ⟨(k, v), List.mem_cons_self _ _, Or.inl hk⟩
      · exact ⟨(k, v), List.mem_cons_self _ _, Or.inr hv⟩
      · exact ⟨kv, List.mem_cons_of_mem _ hmem, hocc⟩
    · rintro ⟨kv, hmem, hocc⟩
      rcases List.mem_cons.mp hmem with heq | hmem2
      · subst heq
        rcases hocc with hk | hv
        · exact Or.inl (Or.inl hk)
        · exact Or.inl (Or.inr hv)
      · exact Or.inr ⟨kv, hmem2, hocc⟩

end

/-- Membership in a left fold of hash-set inserts. -/
theorem mem_foldl_insert (x : String) :
    ∀ (l : List String) (s : Finset String),
      x ∈ l.foldl (fun acc v => insert v acc) s ↔ x ∈ s ∨ x ∈ l
  | [], s => by simp
  | v :: l, s => by
    rw [List.foldl_cons, mem_foldl_insert x l (insert v s)]
    simp only [Finset.mem_insert, List.mem_cons]
    tauto

/-- Membership in the clients fold of `required_env_vars`. -/
theorem mem_clients_foldl (x : String) :
    ∀ (cs : List (Node IR.Client)) (s : Finset String),
      x ∈ cs.foldl (fun env_vars client =>
          (IR.Client.required_env_vars client.elem).foldl
            (fun acc v => insert v acc) env_vars) s ↔
        x ∈ s ∨ ∃ c, c ∈ cs ∧ x ∈ IR.Client.required_env_vars c.elem
  | [], s => by simp
  | c :: cs, s => by
    rw [List.foldl_cons, mem_clients_foldl x cs, mem_foldl_insert x]
    simp only [List.mem_cons]
    constructor
    · rintro ((hs | hc) | ⟨c2, hmem, hx⟩)
      · exact Or.inl hs
      · exact Or.inr ⟨c, Or.inl rfl, hc⟩
      · exact Or.inr ⟨c2, Or.inr hmem, hx⟩
    · rintro (hs | ⟨c2, (rfl | hmem), hx⟩)
      · exact Or.inl (Or.inl hs)
      · exact Or.inl (Or.inr hx)
      · exact Or.inr ⟨c2, hmem, hx⟩

/-- Membership in the collected env var list of one client. -/
theorem mem_client_required_env_vars (x : String) (c : IR.Client) :
    x ∈ IR.Client.required_env_vars c ↔
      ∃ kv, kv ∈ c.options ∧ x ∈ Expression.required_env_vars kv.2 := by
  simp only [IR.Client.required_env_vars, List.mem_flatten, List.mem_map]
  constructor
  · rintro ⟨l, ⟨kv, hmem, rfl⟩, hx⟩
    exact ⟨kv, hmem, hx⟩
  · rintro ⟨kv, hmem, hx⟩
    exact ⟨Expression.required_env_vars kv.2, ⟨kv, hmem, rfl⟩, hx⟩

/-- C5: `required_env_vars()` returns exactly the set of env-identifier
names occurring (recursively through lists and maps) in any client
options, each exactly once — concretely, a client whose options nest `FOO`
twice inside lists yields the one-element set containing `FOO`. -/
theorem c5_required_env_vars_exact :
    (∀ (ir : IR.IntermediateRepr) (x : String),
      x ∈ IR.IntermediateRepr.required_env_vars ir ↔
        ∃ c, c ∈ ir.clients ∧ ∃ kv, kv ∈ c.elem.options ∧ EnvOccurs x kv.2) ∧
    IR.IntermediateRepr.required_env_vars exampleNestedIR = {"FOO"} := by
  constructor
  · intro ir x
    rw [IR.IntermediateRepr.required_env_vars, mem_clients_foldl x]
    simp only [Finset.not_mem_empty, false_or]
    constructor
    · rintro ⟨c, hmem, hx⟩
      obtain ⟨kv, hkv, hx2⟩ := (mem_client_required_env_vars x c.elem).mp hx
      exact ⟨c, hmem, kv, hkv, (mem_required_env_vars x kv.2).mp hx2⟩
    · rintro ⟨c, hmem, kv, hkv, hocc⟩
      refine ⟨c, hmem, ?_⟩
      exact (mem_client_required_env_vars x c.elem).mpr
        ⟨kv, hkv, (mem_required_env_vars x kv.2).mpr hocc⟩
  · decide

set_option maxRecDepth 10000

/-- C6: binding failures are all collected — the call
AnotherFunc(true, arg2 = "1", arg4 = 1) against
AnotherFunc(arg: bool, arg2: string, arg3: number) yields exactly two
diagnostics, missing `arg3` and unknown `arg4` with suggestion `arg3`; and
in general a call through the registry type-checks to the declared return
type only when argument binding produced zero diagnostics. -/
theorem c6_call_binding_diagnostics :
    (evaluate_type callTestTypes c6Call =
      Except.error [Diag.missingArg "AnotherFunc" "arg3",
        Diag.unknownArg "AnotherFunc" "arg4" ["arg3"]]) ∧
    (∀ (reg : PredefinedTypes) (fname : String) (decl : FunctionDecl)
        (args : List JExpr) (kwargs : List (String × JExpr)) (t : EvalType),
      lookupList reg.functions fname = some decl →
      lookupVar reg fname = some (EvalType.functionRef fname) →
      evaluate_type reg (JExpr.call (JExpr.var fname) args kwargs) = Except.ok t →
      t = decl.ret ∧
        bindCallDiags fname decl ((evalArgs reg args).map Prod.fst)
          ((evalKwargs reg kwargs).map (fun r => r.1)) = []) := by
  constructor
  · rfl
  · intro reg fname decl args kwargs t hdecl hvar h
    simp only [evaluate_type, hvar, hdecl, except_ok_bind, except_pure, except_throw] at h
    split at h
    case isTrue hcond =>
      cases h
      rw [List.isEmpty_iff, List.append_eq_nil] at hcond
      exact ⟨rfl, hcond.2⟩
    case isFalse hcond =>
      exact Except.noConfusion h

/-- Witness for C6: the correctly bound call binds with zero diagnostics and
type-checks to the declared float return type. -/
theorem c6_call_binding_diagnostics_witness :
    EvalType.float = anotherFuncDecl.ret ∧
      bindCallDiags "AnotherFunc" anotherFuncDecl
        ((evalArgs callTestTypes [JExpr.constBool true]).map Prod.fst)
        ((evalKwargs callTestTypes
          [("arg2", JExpr.constStr "1"), ("arg3", JExpr.constInt 2)]).map
            (fun r => r.1)) = [] :=
  c6_call_binding_diagnostics.2 callTestTypes "AnotherFunc" anotherFuncDecl
    [JExpr.constBool true] [("arg2", JExpr.constStr "1"), ("arg3", JExpr.constInt 2)]
    EvalType.float rfl rfl rfl

/-- C7: a conditional expression type-checks both branches unconditionally
and yields a `Union` of exactly the two branch types: concretely,
`1 if true else 2` evaluates to `Union [Literal 1, Literal 2]`; in general
two well-typed branches produce exactly their two types and nothing else;
and an error in the dead else-branch still surfaces even under a true
condition. -/
theorem c7_conditional_union :
    (evaluate_type default_types
        (JExpr.ifExpr (JExpr.constInt 1) (JExpr.constBool true) (JExpr.constInt 2)) =
      Except.ok (EvalType.union [EvalType.literal (LiteralValue.int 1),
        EvalType.literal (LiteralValue.int 2)])) ∧
    (∀ (reg : PredefinedTypes) (cond thenB elseB : JExpr) (tc tb eb : EvalType),
      evaluate_type reg cond = Except.ok tc →
      evaluate_type reg thenB = Except.ok tb →
      evaluate_type reg elseB = Except.ok eb →
      evaluate_type reg (JExpr.ifExpr thenB cond elseB) =
        Except.ok (EvalType.union [tb, eb])) ∧
    (evaluate_type default_types
        (JExpr.ifExpr (JExpr.constInt 1) (JExpr.constBool true) (JExpr.var "nope")) =
      Except.error [Diag.unknownVariable "nope" ["_", "ctx"]]) := by
  refine ⟨rfl, ?_, rfl⟩
  intro reg cond thenB elseB tc tb eb hc ht he
  simp only [evaluate_type, hc, ht, he, except_pure]

/-- Witness for C7 at two literal branches under a false condition. -/
theorem c7_conditional_union_witness :
    evaluate_type default_types
      (JExpr.ifExpr (JExpr.constStr "a") (JExpr.constBool false) (JExpr.constInt 3)) =
      Except.ok (EvalType.union [EvalType.literal (LiteralValue.string "a"),
        EvalType.literal (LiteralValue.int 3)]) :=
  c7_conditional_union.2.1 default_types (JExpr.constBool false) (JExpr.constStr "a")
    (JExpr.constInt 3) (EvalType.literal (LiteralValue.bool false))
    (EvalType.literal (LiteralValue.string "a")) (EvalType.literal (LiteralValue.int 3))
    rfl rfl rfl

/-- C9 counterexample: the unknown-keyword diagnostic for
`ctx.output_format` does not list all recognized option names — `prefix`
and `hoisted_class_prefix` are recognized options (the same test file
type-checks them), yet the suggestion list pinned down by the test is
exactly the three names `always_hoist_enums`, `enum_value_prefix`,
`or_splitter`. -/
theorem c9_suggest_eval :
    suggest "unknown"
      ["or_splitter", "enum_value_prefix", "always_hoist_enums", "hoisted_class_prefix"] =
      ["always_hoist_enums", "enum_value_prefix", "or_splitter"] := by decide

/-- The C9 evaluation, with the `suggest` computation factored out through
`c9_suggest_eval` (the edit-distance table is evaluated by the kernel). -/
theorem c9_eval :
    evaluate_type default_types c9UnknownCall =
      Except.error [Diag.unknownArg "baml::OutputFormat" "unknown"
        ["always_hoist_enums", "enum_value_prefix", "or_splitter"]] := by
  have h1 : evaluate_type default_types c9UnknownCall =
      Except.error [Diag.unknownArg "baml::OutputFormat" "unknown"
        (suggest "unknown"
          ["or_splitter", "enum_value_prefix", "always_hoist_enums",
           "hoisted_class_prefix"])] := rfl
  rw [h1, c9_suggest_eval]

theorem c9_suggestions_not_all_options :
    ("prefix" ∈ outputFormatParams.map Prod.fst) ∧
    ("hoisted_class_prefix" ∈ outputFormatParams.map Prod.fst) ∧
    (evaluate_type default_types c9UnknownCall =
      Except.error [Diag.unknownArg "baml::OutputFormat" "unknown"
        ["always_hoist_enums", "enum_value_prefix", "or_splitter"]]) ∧
    ("prefix" ∉ (["always_hoist_enums", "enum_value_prefix", "or_splitter"] : List String)) ∧
    ("hoisted_class_prefix" ∉
      (["always_hoist_enums", "enum_value_prefix", "or_splitter"] : List String)) :=
  ⟨by decide, by decide, c9_eval, by decide, by decide⟩

/-- C9 amended: the unknown-keyword diagnostic suggests the closest
still-unbound recognized option names capped at three — here exactly
`always_hoist_enums`, `enum_value_prefix`, `or_splitter` — multiple
recognized names rather than just the single closest match, but not all of
them. -/
theorem c9_unknown_kwarg_suggests_closest :
    (evaluate_type default_types c9UnknownCall =
      Except.error [Diag.unknownArg "baml::OutputFormat" "unknown"
        ["always_hoist_enums", "enum_value_prefix", "or_splitter"]]) ∧
    ((["always_hoist_enums", "enum_value_prefix", "or_splitter"] : List String).length = 3) ∧
    (∀ s ∈ (["always_hoist_enums", "enum_value_prefix", "or_splitter"] : List String),
      s ∈ outputFormatParams.map Prod.fst) ∧
    (1 < (["always_hoist_enums", "enum_value_prefix", "or_splitter"] : List String).length) :=
  ⟨c9_eval, rfl, by decide, by decide⟩
